import Mathlib

/-!
Verification of the log-based field versioning and restoration engine of the
ega-biomongo-tools repository. The Python sources under `source/` are embedded
shallowly: documents are JSON-like values, the MongoDB collection state is
passed explicitly, and each operation handler's pure core is a Lean function
whose result records both the write it would issue and whether the
compensating `deleteLog` call on the process record was made.
-/

namespace BioMongo

/-- A JSON-like document value: the dynamic value universe of the Python code
(`None`, booleans, numbers, strings, lists, and string-keyed dictionaries).
Dictionaries are association lists in storage order, as Python dicts preserve
insertion order. -/
inductive Val where
  | vnull : Val
  | vbool : Bool → Val
  | vint : Int → Val
  | vstr : String → Val
  | vlist : List Val → Val
  | vdict : List (String × Val) → Val
deriving Repr

mutual

/-- Structural equality test on values (Python `==` on JSON-like data). -/
def beqVal : Val → Val → Bool
  | .vnull, .vnull => true
  | .vbool a, .vbool b => a == b
  | .vint a, .vint b => a == b
  | .vstr a, .vstr b => a == b
  | .vlist xs, .vlist ys => beqValList xs ys
  | .vdict fs, .vdict gs => beqValFields fs gs
  | _, _ => false

/-- Structural equality of value lists. -/
def beqValList : List Val → List Val → Bool
  | [], [] => true
  | x :: xs, y :: ys => beqVal x y && beqValList xs ys
  | _, _ => false

/-- Structural equality of dictionary entry lists. -/
def beqValFields : List (String × Val) → List (String × Val) → Bool
  | [], [] => true
  | (k, v) :: xs, (l, w) :: ys => k == l && beqVal v w && beqValFields xs ys
  | _, _ => false

end

mutual

theorem beqVal_iff : ∀ a b : Val, beqVal a b = true ↔ a = b
  | .vnull, .vnull => by simp [beqVal]
  | .vnull, .vbool _ => by simp [beqVal]
  | .vnull, .vint _ => by simp [beqVal]
  | .vnull, .vstr _ => by simp [beqVal]
  | .vnull, .vlist _ => by simp [beqVal]
  | .vnull, .vdict _ => by simp [beqVal]
  | .vbool _, .vnull => by simp [beqVal]
  | .vbool _, .vbool _ => by simp [beqVal]
  | .vbool _, .vint _ => by simp [beqVal]
  | .vbool _, .vstr _ => by simp [beqVal]
  | .vbool _, .vlist _ => by simp [beqVal]
  | .vbool _, .vdict _ => by simp [beqVal]
  | .vint _, .vnull => by simp [beqVal]
  | .vint _, .vbool _ => by simp [beqVal]
  | .vint _, .vint _ => by simp [beqVal]
  | .vint _, .vstr _ => by simp [beqVal]
  | .vint _, .vlist _ => by simp [beqVal]
  | .vint _, .vdict _ => by simp [beqVal]
  | .vstr _, .vnull => by simp [beqVal]
  | .vstr _, .vbool _ => by simp [beqVal]
  | .vstr _, .vint _ => by simp [beqVal]
  | .vstr _, .vstr _ => by simp [beqVal]
  | .vstr _, .vlist _ => by simp [beqVal]
  | .vstr _, .vdict _ => by simp [beqVal]
  | .vlist _, .vnull => by simp [beqVal]
  | .vlist _, .vbool _ => by simp [beqVal]
  | .vlist _, .vint _ => by simp [beqVal]
  | .vlist _, .vstr _ => by simp [beqVal]
  | .vlist xs, .vlist ys => by
      have h := beqValList_iff xs ys
      simp [beqVal, h]
  | .vlist _, .vdict _ => by simp [beqVal]
  | .vdict _, .vnull => by simp [beqVal]
  | .vdict _, .vbool _ => by simp [beqVal]
  | .vdict _, .vint _ => by simp [beqVal]
  | .vdict _, .vstr _ => by simp [beqVal]
  | .vdict _, .vlist _ => by simp [beqVal]
  | .vdict fs, .vdict gs => by
      have h := beqValFields_iff fs gs
      simp [beqVal, h]

theorem beqValList_iff : ∀ xs ys : List Val, beqValList xs ys = true ↔ xs = ys
  | [], [] => by simp [beqValList]
  | [], _ :: _ => by simp [beqValList]
  | _ :: _, [] => by simp [beqValList]
  | x :: xs, y :: ys => by
      have h1 := beqVal_iff x y
      have h2 := beqValList_iff xs ys
      simp [beqValList, h1, h2]

theorem beqValFields_iff : ∀ fs gs : List (String × Val), beqValFields fs gs = true ↔ fs = gs
  | [], [] => by simp [beqValFields]
  | [], _ :: _ => by simp [beqValFields]
  | _ :: _, [] => by simp [beqValFields]
  | (k, v) :: fs, (l, w) :: gs => by
      have h1 := beqVal_iff v w
      have h2 := beqValFields_iff fs gs
      simp [beqValFields, h1, h2, Prod.ext_iff]

end

instance : DecidableEq Val := fun a b =>
  decidable_of_iff (beqVal a b = true) (beqVal_iff a b)

/-! ### Python string primitives

The Python `str` methods used by the sources, embedded on the character list
underlying a Lean `String`. -/

/-- Python `str.lower()`. -/
def pyLower (s : String) : String := ⟨s.data.map Char.toLower⟩

/-- Remove leading and trailing whitespace from a character list. -/
def stripChars (l : List Char) : List Char :=
  ((l.dropWhile Char.isWhitespace).reverse.dropWhile Char.isWhitespace).reverse

/-- Python `str.strip()`. -/
def pyStrip (s : String) : String := ⟨stripChars s.data⟩

/-- Python `c in s` for a one-character needle. -/
def pyContainsChar (s : String) (c : Char) : Bool := s.data.contains c

/-- Worker for `pySplitChar`: accumulates the current chunk in reverse. -/
def splitCharAux (c : Char) : List Char → List Char → List (List Char)
  | acc, [] => [acc.reverse]
  | acc, x :: xs =>
      if x = c then acc.reverse :: splitCharAux c [] xs
      else splitCharAux c (x :: acc) xs

/-- Python `s.split(sep)` for a one-character separator: ordered chunks,
duplicates and empty chunks preserved. -/
def pySplitChar (c : Char) (s : String) : List String :=
  (splitCharAux c [] s.data).map (fun l => ⟨l⟩)

/-- Python `s.startswith(p)`. -/
def pyStartsWith (s p : String) : Bool := p.data.isPrefixOf s.data

/-! ### Data model

The persisted shapes of `log` array entries, per `log_functions.py` and the
operation handlers. Optional fields model dictionary keys that the Python code
includes only conditionally; list-valued keys read back through
`.get(key, [])` are modelled as plain lists with `[]` for an absent key. -/

/-- The `changed_values` sub-document of a single-field log entry
(`log_functions.updateLog`): `added`/`removed` keys are present only when the
corresponding difference list is non-empty. -/
structure ChangedValues where
  added : Option (List Val) := none
  removed : Option (List Val) := none
deriving DecidableEq, Repr

/-- A per-field change descriptor inside a `modified_fields` list
(`diffLogEntry`, `compare_list_of_dicts`, rename/remove handlers). The
`added`/`removed` keys are read back via `.get(_, [])`, so an absent key is
modelled as `[]`. -/
structure FieldDescr where
  field : String
  added : List Val := []
  removed : List Val := []
  renamed_to : Option String := none
deriving DecidableEq, Repr

/-- One entry of a document's embedded `log` array. Single-field operations
set `modified_field`/`changed_values`; multi-field operations set
`modified_fields` (read back via `.get("modified_fields", [])`, so absent is
`[]`). -/
structure LogEntry where
  log_id : String
  operation : String
  modified_field : Option String := none
  changed_values : Option ChangedValues := none
  modified_fields : List FieldDescr := []
deriving DecidableEq, Repr

/-- A stored document: its domain content (an association list of top-level
fields, nested dictionaries inside `Val.vdict`) and its `log` array, `none`
when the `log` key is absent. -/
structure Document where
  data : List (String × Val)
  log : Option (List LogEntry)
deriving DecidableEq, Repr

/-- Python `doc.get("log", [])`. -/
def Document.logD (d : Document) : List LogEntry := d.log.getD []

/-! ### Dictionary primitives -/

/-- Python `d.get(k)` on an association-list dictionary (first binding wins,
as keys are unique in a Python dict). -/
def dictLookup (fs : List (String × Val)) (k : String) : Option Val :=
  (fs.find? (fun p => p.1 = k)).map Prod.snd

/-- Python `d[k] = v`: replace the binding in place if the key exists,
otherwise append it (insertion order semantics). -/
def setKey (k : String) (v : Val) (fs : List (String × Val)) : List (String × Val) :=
  if fs.any (fun p => p.1 = k) then fs.map (fun p => if p.1 = k then (k, v) else p)
  else fs ++ [(k, v)]

/-- Python `del d[k]`. -/
def eraseKey (k : String) (fs : List (String × Val)) : List (String × Val) :=
  fs.filter (fun p => ¬ p.1 = k)

/-- Python `isinstance(v, list)`. -/
def Val.isList : Val → Bool
  | .vlist _ => true
  | _ => false

/-- Python `isinstance(v, dict)`. -/
def Val.isDict : Val → Bool
  | .vdict _ => true
  | _ => false

/-- Whether a value is hashable in Python (lists and dicts are not; putting
one in a `set` raises `TypeError`). -/
def Val.hashable : Val → Bool
  | .vlist _ => false
  | .vdict _ => false
  | _ => true

/-- Python `isinstance(v, str)`. -/
def Val.isString : Val → Bool
  | .vstr _ => true
  | _ => false

/-- The entry list of a dictionary value (callers guard with `isDict`). -/
def asDict : Val → List (String × Val)
  | .vdict fs => fs
  | _ => []

/-- Python `v if isinstance(v, list) else [v]`. -/
def toElems : Val → List Val
  | .vlist xs => xs
  | v => [v]

/-- The dot-path walk of `restore_value.restoreOne` lines 54-59:
`current = current.get(key, None) if isinstance(current, dict) else None`,
breaking when `None` is reached. A stored null, a missing key and a non-dict
intermediate all collapse to `vnull` (Python `None`). -/
def pyGetPath (doc : List (String × Val)) (path : List String) : Val :=
  path.foldl (fun cur key =>
    match cur with
    | .vdict fs => (dictLookup fs key).getD .vnull
    | _ => .vnull) (.vdict doc)

/-! ### Value Normalizer — `update_value.py` `updateOne` lines 34-47 -/

/-- Normalization of a raw update value: for a string, lower-case and strip
for comparison; `"true"`/`"false"` become booleans, `"none"` becomes null, a
string containing `;` is split (on the original, untrimmed text) into a list
of strings, and any other string passes through unchanged. Non-strings pass
through unchanged. -/
def normalizeValue (raw : Val) : Val :=
  match raw with
  | .vstr s =>
      let lowered := pyStrip (pyLower s)
      if lowered = "true" ∨ lowered = "false" then .vbool (lowered = "true")
      else if lowered = "none" then .vnull
      else if pyContainsChar s ';' then .vlist ((pySplitChar ';' s).map Val.vstr)
      else .vstr s
  | v => v

/-! ### Log Ledger append — `log_functions.py` `updateLog` lines 36-73 -/

/-- Line 45: normalize the previous value to a list; `None` and the literal
string `"Non-existing"` count as empty. -/
def prevList (previous_value : Val) : List Val :=
  match previous_value with
  | .vlist xs => xs
  | v => if v ≠ .vnull ∧ v ≠ .vstr "Non-existing" then [v] else []

/-- Line 46: normalize the new value to a list; only `None` counts as empty. -/
def newList (new_value : Val) : List Val :=
  match new_value with
  | .vlist xs => xs
  | v => if v ≠ .vnull then [v] else []

/-- Line 49: `list(set(new_list) - set(prev_list))`. Python's set iteration
order is unspecified; the embedding picks the deduplicated filtered list. -/
def diffAdded (previous_value new_value : Val) : List Val :=
  ((newList new_value).dedup).filter (fun x => x ∉ prevList previous_value)

/-- Line 50: `list(set(prev_list) - set(new_list))`. -/
def diffRemoved (previous_value new_value : Val) : List Val :=
  ((prevList previous_value).dedup).filter (fun x => x ∉ newList new_value)

/-- Embeds `log_functions.updateLog`: build the new single-field log entry and
prepend it to the document's existing log (empty when the document or its
`log` key is absent). The `changed_values` key is included only when the
previous value is neither `None` nor `"Non-existing"`, and its `added` /
`removed` keys only when the corresponding lists are non-empty. -/
def updateLog (previous_document : Option Document) (process_id operation update_field : String)
    (previous_value new_value : Val) : List LogEntry :=
  let existing_log := match previous_document with
    | none => []
    | some d => d.logD
  let added_values := diffAdded previous_value new_value
  let removed_values := diffRemoved previous_value new_value
  let changed : Option ChangedValues :=
    if previous_value ≠ .vnull ∧ previous_value ≠ .vstr "Non-existing" then
      some { added := if added_values ≠ [] then some added_values else none,
             removed := if removed_values ≠ [] then some removed_values else none }
    else none
  let new_log : LogEntry :=
    { log_id := process_id, operation := operation,
      modified_field := some update_field, changed_values := changed }
  new_log :: existing_log

/-! ### Restore — `restore_value.py` `restoreOne` lines 31-108 -/

/-- One replay step of the restore loop (lines 74-87): find the descriptor
for the requested field among the entry's `modified_fields` (absent key reads
as `[]`); if present, drop the elements it added and append the elements it
removed. -/
def applyInverse (field_name : String) (restored_value : List Val) (log : LogEntry) : List Val :=
  match log.modified_fields.find? (fun mf => mf.field = field_name) with
  | none => restored_value
  | some mf => (restored_value.filter (fun x => x ∉ mf.added)) ++ mf.removed

/-- The restore loop (lines 67-88): walk the log from the newest entry,
stopping (before applying anything) at the first entry whose `log_id` matches
the target; every earlier entry is replayed through `applyInverse`. -/
def replayLogs (logs : List LogEntry) (log_id field_name : String)
    (restored_value : List Val) : List Val :=
  match logs with
  | [] => restored_value
  | l :: rest =>
      if l.log_id = log_id then restored_value
      else replayLogs rest log_id field_name (applyInverse field_name restored_value l)

/-- The outcome of one `restoreOne` invocation on a found document. -/
inductive RestoreResult where
  | logIdNotFound : RestoreResult
  | notRestorable : RestoreResult
  | noChange : RestoreResult
  | committed : Val → List LogEntry → RestoreResult
deriving DecidableEq, Repr

/-- The `update_one` `$set` payload issued by `restoreOne`, if any. -/
def RestoreResult.writes : RestoreResult → Option (Val × List LogEntry)
  | .committed v l => some (v, l)
  | _ => none

/-- Whether the corresponding code path calls `deleteLog` on the process
record (lines 43, 50 and 96 do; the commit path at line 102 does not). -/
def RestoreResult.deletedProcessRecord : RestoreResult → Bool
  | .committed _ _ => false
  | _ => true

/-- The pure core of `restore_value.restoreOne`, after the document has been
found and the process record created: locate the target entry by `log_id`,
check its operation tag is an update/restore variant (case-insensitively, by
prefix), replay the log from the newest entry down to — but excluding — the
target, collapse a short non-list result back to a scalar or null, and either
report no change (rolling back the process record) or commit the restored
value together with a freshly prepended log entry. -/
def restoreOne (doc : Document) (field_name log_id process_id operation : String) :
    RestoreResult :=
  let logs := doc.logD
  match logs.find? (fun l => l.log_id = log_id) with
  | none => .logIdNotFound
  | some target =>
      let log_operation := pyLower target.operation
      if ¬(pyStartsWith log_operation "update" ∨ pyStartsWith log_operation "restore") then
        .notRestorable
      else
        let current_value := pyGetPath doc.data (pySplitChar '.' field_name)
        let v0 : List Val :=
          match current_value with
          | .vlist xs => xs
          | .vnull => []
          | v => [v]
        let replayed := replayLogs logs log_id field_name v0
        let restored_value : Val :=
          if ¬ current_value.isList ∧ replayed.length ≤ 1 then replayed.headD .vnull
          else .vlist replayed
        if restored_value = current_value then .noChange
        else .committed restored_value
          (updateLog (some doc) process_id operation field_name current_value restored_value)

/-! ### Update — `update_value.py` `updateOne` lines 32-80 -/

/-- The outcome of one `updateOne` invocation on a found document: either the
values already match (the process record is rolled back and nothing is
written) or a `$set` of the new value plus the updated log is issued. -/
inductive UpdateOutcome where
  | same : UpdateOutcome
  | write : Val → List LogEntry → UpdateOutcome
deriving DecidableEq, Repr

/-- The pure core of `update_value.updateOne` once the document has been
found: normalize the incoming value, read the current value through the dot
path, and unless the field exists with an equal value, write the normalized
value and the log with one new entry prepended. (The source walks the path
with unguarded `.get`, assuming intermediate levels are dictionaries.) -/
def updateOne (previous_document : Document) (update_field : String) (new_value : Val)
    (process_id operation : String) : UpdateOutcome :=
  let new_value_list := normalizeValue new_value
  let current_value := pyGetPath previous_document.data (pySplitChar '.' update_field)
  if current_value = .vnull ∨ current_value ≠ new_value_list then
    .write new_value_list
      (updateLog (some previous_document) process_id operation update_field
        current_value new_value_list)
  else .same

/-- The `$set` payload issued by `updateOne`, if any. -/
def UpdateOutcome.writes : UpdateOutcome → Option (Val × List LogEntry)
  | .write v l => some (v, l)
  | .same => none

/-- Whether the corresponding code path calls `deleteLog` on the process
record (line 66 of `update_value.py` does, on the equal-value path). -/
def UpdateOutcome.deletedProcessRecord : UpdateOutcome → Bool
  | .same => true
  | .write _ _ => false

/-! ### Diff Engine — `log_functions.py` lines 82-193 -/

/-- Insert an entry into a key-sorted entry list (keys are unique in a
dictionary, so comparing keys matches Python's `sorted(d.items())`). -/
def insertByKey (p : String × Val) : List (String × Val) → List (String × Val)
  | [] => [p]
  | q :: rest => if q.1 < p.1 then q :: insertByKey p rest else p :: q :: rest

/-- Insertion sort of dictionary entries by key. -/
def sortByKey : List (String × Val) → List (String × Val)
  | [] => []
  | p :: rest => insertByKey p (sortByKey rest)

/-- The `normalize` helper of `compare_list_of_dicts`:
`tuple(sorted(d.items()))` — a canonical, order-independent form of a flat
dictionary. -/
def normalizeDict (d : List (String × Val)) : List (String × Val) := sortByKey d

/-- Embeds `log_functions.compare_list_of_dicts`: set-diff two lists of (flat)
dictionaries by their normalized forms and report added/removed dictionaries,
or `none` when both sets coincide. -/
def compare_list_of_dicts (old_list new_list : List (List (String × Val)))
    (field_name : String) : Option FieldDescr :=
  let old_set := (old_list.map normalizeDict).dedup
  let new_set := (new_list.map normalizeDict).dedup
  let added_dicts := new_set.filter (fun t => t ∉ old_set)
  let removed_dicts := old_set.filter (fun t => t ∉ new_set)
  if added_dicts ≠ [] ∨ removed_dicts ≠ [] then
    some { field := field_name,
           added := added_dicts.map Val.vdict,
           removed := removed_dicts.map Val.vdict }
  else none

mutual

/-- Embeds `log_functions.flatten_dict`: recursively flatten nested dictionaries to
dot-separated paths; lists are kept as leaf values. -/
def flattenFields : List (String × Val) → String → List (String × Val)
  | [], _ => []
  | (k, v) :: rest, parent_key =>
      let new_key := if parent_key = "" then k else parent_key ++ "." ++ k
      flattenValue v new_key ++ flattenFields rest parent_key

/-- One value of `flatten_dict`: a dictionary recurses, anything else is a
leaf under its dot path. -/
def flattenValue : Val → String → List (String × Val)
  | .vdict fs, new_key => flattenFields fs new_key
  | v, new_key => [(new_key, v)]

end

/-- Python `flatten_dict(d)` with an empty parent key. -/
def flatten_dict (d : List (String × Val)) : List (String × Val) := flattenFields d ""

/-- Python `flat.get(key, "Non-existing")` — the absence sentinel of
`diffLogEntry`. -/
def flatGet (flat : List (String × Val)) (key : String) : Val :=
  (dictLookup flat key).getD (.vstr "Non-existing")

/-- Case 3 of `diffLogEntry` (lines 120-141): generic scalar/list diff. The
`try`/`except TypeError` on unhashable elements becomes an explicit
hashability check; on fallback the two whole values are reported. -/
def genericFieldDiff (old_value new_value : Val) (key : String) : FieldDescr :=
  let old_list := toElems old_value
  let new_list := toElems new_value
  if (old_list ++ new_list).all Val.hashable then
    { field := key,
      added := (new_list.dedup).filter (fun x => x ∉ old_list),
      removed := (old_list.dedup).filter (fun x => x ∉ new_list) }
  else
    { field := key, added := [new_value], removed := [old_value] }

/-- The per-key body of the `diffLogEntry` loop (lines 102-141): a value of
`"Non-existing"` on either side yields a bare field marker; two lists made
entirely of dictionaries go through the embedded-object set diff; otherwise
differing values go through the generic diff and equal values yield
nothing. -/
def diffKey (old_value new_value : Val) (key : String) : Option FieldDescr :=
  if old_value = .vstr "Non-existing" ∨ new_value = .vstr "Non-existing" then
    some { field := key }
  else if old_value.isList ∧ new_value.isList ∧
      (toElems old_value ++ toElems new_value).all Val.isDict then
    compare_list_of_dicts ((toElems old_value).map asDict) ((toElems new_value).map asDict) key
  else if old_value ≠ new_value then
    some (genericFieldDiff old_value new_value key)
  else none

/-- Embeds `log_functions.diffLogEntry`: flatten both documents, take the union of
their paths (Python iterates a set; the embedding fixes first-to-last order),
skip paths starting with `_id` or `log`, and collect the per-path
descriptors into a `modified_fields` log entry. -/
def diffLogEntry (old_doc new_doc : List (String × Val)) (process_id operation : String) :
    LogEntry :=
  let flat_old := flatten_dict old_doc
  let flat_new := flatten_dict new_doc
  let all_keys := (flat_old.map Prod.fst ++ flat_new.map Prod.fst).dedup
  let modified_fields := all_keys.filterMap (fun key =>
    if pyStartsWith key "_id" ∨ pyStartsWith key "log" then none
    else diffKey (flatGet flat_old key) (flatGet flat_new key) key)
  { log_id := process_id, operation := operation, modified_fields := modified_fields }

/-! ### Insert — `insert.py` `insertDocuments` lines 62-135 -/

/-- A document as stored in the collection: its content (all keys except the
MongoDB `_id` and the `log` array) and its log. -/
structure MongoDoc where
  content : List (String × Val)
  log : Option (List LogEntry)
deriving DecidableEq, Repr

/-- What `insertDocuments` does with one incoming document. -/
inductive InsertAction where
  | skip : InsertAction
  | overwrite : List (String × Val) → List LogEntry → InsertAction
  | insertNew : List (String × Val) → List LogEntry → InsertAction
deriving DecidableEq, Repr

/-- Whether the action issues a collection write. -/
def InsertAction.isWrite : InsertAction → Bool
  | .skip => false
  | _ => true

/-- Python `merged_doc.update(doc)`: each incoming binding overwrites or
appends. -/
def mergeDict (base upd : List (String × Val)) : List (String × Val) :=
  upd.foldl (fun acc kv => setKey kv.1 kv.2 acc) base

/-- Python `doc['stable_id']` (documents are required to carry one). -/
def stableIdOf (d : List (String × Val)) : Val := (dictLookup d "stable_id").getD .vnull

/-- The per-document body of the `insertDocuments` loop (lines 70-106):
match by `stable_id`; an identical document (comparing everything except
`_id` and `log`) is skipped, a differing one is shallow-merged and given a
prepended `<operation>-overwrite` log entry, and an unmatched one is queued
for insertion with a fresh one-entry log. -/
def processOne (existing_docs : List MongoDoc) (doc : List (String × Val))
    (process_id operation : String) : InsertAction :=
  match existing_docs.find? (fun e => stableIdOf e.content = stableIdOf doc) with
  | some existing =>
      if doc = existing.content then .skip
      else
        let overwritten_log_entry : LogEntry :=
          { log_id := process_id, operation := operation ++ "-overwrite" }
        .overwrite (mergeDict existing.content doc) (overwritten_log_entry :: existing.log.getD [])
  | none =>
      let new_log_entry : LogEntry := { log_id := process_id, operation := operation }
      .insertNew doc [new_log_entry]

/-- The result of one `insertDocuments` run over a batch of documents. -/
structure InsertRunResult where
  actions : List InsertAction
  deletedProcessRecord : Bool
deriving DecidableEq, Repr

/-- The pure core of `insert.insertDocuments` for one batch: process every
document against the snapshot of existing documents. `insert.py` contains no
`deleteLog` call, so the process record created at the start of the run is
never deleted, on any path. -/
def insertDocuments (existing_docs : List MongoDoc) (documents : List (List (String × Val)))
    (process_id operation : String) : InsertRunResult :=
  { actions := documents.map (fun d => processOne existing_docs d process_id operation),
    deletedProcessRecord := false }

/-! ### Rename and Remove — `rename_field.py` / `remove_field.py` -/

/-- The traversal shared by `renameOne` and `removeOne` (lines 36-56 of
`remove_field.py`): walk the dot path, failing if an intermediate is not a
dictionary or a key is absent, then delete the final key and return its
value together with the updated dictionary. -/
def getDeletePath : List (String × Val) → List String → Option (Val × List (String × Val))
  | fs, [k] =>
      (match dictLookup fs k with
       | some v => some (v, eraseKey k fs)
       | none => none)
  | fs, k :: ks =>
      (match dictLookup fs k with
       | some (.vdict inner) =>
           (match getDeletePath inner ks with
            | some (v, inner2) => some (v, setKey k (.vdict inner2) fs)
            | none => none)
       | _ => none)
  | _, [] => none

/-- The new-path assignment of `renameOne` (lines 50-56 of
`rename_field.py`): create or overwrite intermediate levels with empty
dictionaries, then assign the final key. -/
def setPath : List (String × Val) → List String → Val → List (String × Val)
  | fs, [k], v => setKey k v fs
  | fs, k :: ks, v =>
      let inner := match dictLookup fs k with
        | some (.vdict g) => g
        | _ => []
      setKey k (.vdict (setPath inner ks v)) fs
  | fs, [], _ => fs

/-- The outcome of one `renameOne` invocation on a found document. -/
inductive RenameResult where
  | fieldMissing : RenameResult
  | renamed : List (String × Val) → List LogEntry → RenameResult
deriving DecidableEq, Repr

/-- The pure core of `rename_field.renameOne` once the document has been
found: move the value from the old dot path to the new one and prepend a
rename descriptor entry to the log. A missing field rolls back the process
record and writes nothing. -/
def renameOne (doc : List (String × Val)) (existing_log : List LogEntry)
    (rename_field new_field_name process_id operation : String) : RenameResult :=
  match getDeletePath doc (pySplitChar '.' rename_field) with
  | none => .fieldMissing
  | some (value, doc1) =>
      let doc2 := setPath doc1 (pySplitChar '.' new_field_name) value
      let log_entry : LogEntry :=
        { log_id := process_id, operation := operation,
          modified_fields := [{ field := rename_field, renamed_to := some new_field_name }] }
      .renamed doc2 (log_entry :: existing_log)

/-- The outcome of one `removeOne` invocation on a found document. -/
inductive RemoveResult where
  | fieldMissing : RemoveResult
  | removed : List (String × Val) → List LogEntry → RemoveResult
deriving DecidableEq, Repr

/-- The pure core of `remove_field.removeOne` once the document has been
found: delete the dot path and prepend a descriptor entry carrying the
removed value (wrapped in a list when it is not one). A missing field rolls
back the process record and writes nothing. -/
def removeOne (doc : List (String × Val)) (existing_log : List LogEntry)
    (remove_field process_id operation : String) : RemoveResult :=
  match getDeletePath doc (pySplitChar '.' remove_field) with
  | none => .fieldMissing
  | some (previous_value, doc1) =>
      let log_entry : LogEntry :=
        { log_id := process_id, operation := operation,
          modified_fields := [{ field := remove_field, removed := toElems previous_value }] }
      .removed doc1 (log_entry :: existing_log)

/-- The `$push {log: {$each: [entry], $position: 0}}` of
`update_value.updateFile` line 287. -/
def pushLogFront (log_entry : LogEntry) (log : List LogEntry) : List LogEntry :=
  [log_entry] ++ log

/-- Replay written as the spec describes the corrected walk: take the entries
strictly newer than the target (those before the first entry whose `log_id`
matches) and fold the inverse transform over them from newest to oldest. -/
def specReplay (logs : List LogEntry) (log_id field_name : String) (v : List Val) : List Val :=
  (logs.takeWhile (fun l => ¬ l.log_id = log_id)).foldl
    (fun acc l => applyInverse field_name acc l) v

/-! ## Helper lemmas -/

theorem prevList_scalar (v : Val) (h1 : v.isList = false) (h2 : v ≠ .vnull)
    (h3 : v ≠ .vstr "Non-existing") : prevList v = [v] := by
  cases v <;> simp_all [prevList, Val.isList]

theorem newList_scalar (v : Val) (h1 : v.isList = false) (h2 : v ≠ .vnull) :
    newList v = [v] := by
  cases v <;> simp_all [newList, Val.isList]

theorem mem_dropWhile_of_mem {c : Char} {p : Char → Bool} {l : List Char}
    (hp : p c = false) (h : c ∈ l) : c ∈ l.dropWhile p := by
  induction l with
  | nil => cases h
  | cons x xs ih =>
      rw [List.dropWhile_cons]
      split
      · next hx =>
          rcases List.mem_cons.mp h with rfl | hm
          · rw [hp] at hx; cases hx
          · exact ih hm
      · exact h

theorem mem_stripChars {c : Char} {l : List Char} (hc : c.isWhitespace = false) (h : c ∈ l) :
    c ∈ stripChars l := by
  unfold stripChars
  rw [List.mem_reverse]
  apply mem_dropWhile_of_mem hc
  rw [List.mem_reverse]
  exact mem_dropWhile_of_mem hc h

/-- A string containing `;` cannot lower-and-strip to any of the keyword
literals of the normalizer, since stripping only removes whitespace and
lower-casing fixes `;`. -/
theorem contains_keyword_free (s : String) (h : pyContainsChar s ';' = true) :
    pyStrip (pyLower s) ≠ "true" ∧ pyStrip (pyLower s) ≠ "false" ∧
      pyStrip (pyLower s) ≠ "none" := by
  have hmem : ';' ∈ s.data := by
    have h2 : s.data.elem ';' = true := h
    exact List.mem_of_elem_eq_true h2
  have hlow : ';' ∈ (pyLower s).data := by
    have h1 := List.mem_map_of_mem Char.toLower hmem
    have h2 : Char.toLower ';' = ';' := by decide
    rw [h2] at h1
    exact h1
  have hstrip : ';' ∈ (pyStrip (pyLower s)).data :=
    mem_stripChars (by decide) hlow
  refine ⟨?_, ?_, ?_⟩ <;> intro he <;> rw [he] at hstrip <;> revert hstrip <;> decide

/-- Deduplicated filter-by-non-membership is empty exactly when every
normalized dictionary of the first list also occurs in the second. -/
theorem filter_not_mem_dedup_eq_nil (A B : List (List (String × Val))) :
    (A.map normalizeDict).dedup.filter
        (fun t => t ∉ (B.map normalizeDict).dedup) = [] ↔
      ∀ d ∈ A, ∃ e ∈ B, normalizeDict e = normalizeDict d := by
  simp only [List.filter_eq_nil_iff, List.mem_dedup, List.mem_map, Bool.not_eq_false,
    decide_eq_true_eq, not_not]
  constructor
  · intro h d hd
    exact h (normalizeDict d) ⟨d, hd, rfl⟩
  · rintro h t ⟨d, hd, rfl⟩
    exact h d hd

/-- An `updateLog` result is always one new entry consed onto the document's
existing log. -/
theorem updateLog_cons (doc : Document) (pid op f : String) (pv nv : Val) :
    ∃ e, updateLog (some doc) pid op f pv nv = e :: doc.logD ∧
      e.log_id = pid ∧ e.operation = op ∧ e.modified_field = some f :=
  ⟨_, rfl, rfl, rfl, rfl⟩

/-! ## Claim theorems -/

/-- C1 (counterexample): the spec's restore scenario fails on the code. For a
document whose `tags` was updated from `["a","b"]` to `["a","c"]` by a single
logged update (the exact log entry `updateLog` produces for that update),
restoring `tags` to that entry's `log_id` does not yield `["a","b"]`: the
replay loop breaks at the target entry before applying it, and single-field
entries carry `modified_field`/`changed_values` which the replay never
matches, so the restore is a no-op and `tags` stays `["a","c"]`. -/
theorem restore_target_entry_not_applied :
    restoreOne
      ⟨[("stable_id", .vstr "X"), ("tags", .vlist [.vstr "a", .vstr "c"])],
       some [{ log_id := "p1", operation := "update", modified_field := some "tags",
               changed_values := some { added := some [.vstr "c"], removed := some [.vstr "b"] } }]⟩
      "tags" "p1" "p2" "restore" = .noChange ∧
    RestoreResult.writes .noChange = none := by
  exact ⟨by decide, rfl⟩

/-- C1 (amended): the restore replay walks the log from the newest entry down
to but excluding the target entry — it equals a fold of the inverse transform
(`value` minus the entry's added elements, then the removed elements
appended) over exactly the entries strictly newer than the first entry whose
`log_id` matches — and it applies the transform only through a
`modified_fields` descriptor matching the field path: an entry whose
`modified_fields` is absent (as for the `modified_field`/`changed_values`
entries written by single-field updates) is skipped unchanged. -/
theorem replay_strictly_newer_modified_fields :
    (∀ (logs : List LogEntry) (log_id field_name : String) (v : List Val),
        replayLogs logs log_id field_name v = specReplay logs log_id field_name v) ∧
    (∀ (e : LogEntry) (rest : List LogEntry) (log_id field_name : String) (v : List Val),
        e.modified_fields = [] →
        replayLogs (e :: rest) log_id field_name v =
          if e.log_id = log_id then v else replayLogs rest log_id field_name v) := by
  constructor
  · intro logs log_id field_name v
    induction logs generalizing v with
    | nil => simp [replayLogs, specReplay]
    | cons l rest ih =>
        by_cases h : l.log_id = log_id
        · simp [replayLogs, specReplay, h]
        · simp [replayLogs, specReplay, h] at ih ⊢
          exact ih _
  · intro e rest log_id field_name v h
    by_cases hl : e.log_id = log_id
    · simp [replayLogs, hl]
    · simp [replayLogs, hl, applyInverse, h]

/-- C1 (witness): the single-field update entry of the scenario has no
`modified_fields` descriptor, so the replay passes over it unchanged. -/
theorem replay_strictly_newer_modified_fields_witness :
    ({ log_id := "p1", operation := "update", modified_field := some "tags",
       changed_values := some { added := some [.vstr "c"], removed := some [.vstr "b"] } } :
         LogEntry).modified_fields = [] ∧
    replayLogs
      [{ log_id := "p1", operation := "update", modified_field := some "tags",
         changed_values := some { added := some [.vstr "c"], removed := some [.vstr "b"] } }]
      "other" "tags" [.vstr "x"] = [.vstr "x"] := by
  constructor
  · rfl
  · have h := replay_strictly_newer_modified_fields.2
      { log_id := "p1", operation := "update", modified_field := some "tags",
        changed_values := some { added := some [.vstr "c"], removed := some [.vstr "b"] } }
      [] "other" "tags" [.vstr "x"] rfl
    simpa [replayLogs] using h

/-- C2 (counterexample): an insert run in which the only incoming document is
identical to the stored one (comparing everything but `_id` and `log`) is
skipped with no write, yet the Process Record is not deleted —
`insert.py` has no `deleteLog` call, so the record outlives the no-op run. -/
theorem insert_identical_run_keeps_process_record :
    insertDocuments [⟨[("stable_id", .vstr "X"), ("a", .vint 1)], some []⟩]
        [[("stable_id", .vstr "X"), ("a", .vint 1)]] "p1" "insert" =
      { actions := [.skip], deletedProcessRecord := false } ∧
    InsertAction.isWrite .skip = false := by
  exact ⟨by decide, rfl⟩

/-- C2 (amended): a restore whose replayed value equals the current value
writes nothing and deletes its Process Record, and an update finding the
field already equal likewise; but an insert run never deletes the Process
Record it created, even when every document is skipped. -/
theorem noop_rolls_back_record_except_insert :
    (∀ (doc : Document) (f lid pid op : String),
        restoreOne doc f lid pid op = .noChange →
          (restoreOne doc f lid pid op).writes = none ∧
          (restoreOne doc f lid pid op).deletedProcessRecord = true) ∧
    (∀ (doc : Document) (f : String) (nv : Val) (pid op : String),
        updateOne doc f nv pid op = .same →
          (updateOne doc f nv pid op).writes = none ∧
          (updateOne doc f nv pid op).deletedProcessRecord = true) ∧
    (∀ (existing_docs : List MongoDoc) (documents : List (List (String × Val))) (pid op : String),
        (insertDocuments existing_docs documents pid op).deletedProcessRecord = false) := by
  refine ⟨?_, ?_, ?_⟩
  · intro doc f lid pid op h
    rw [h]; exact ⟨rfl, rfl⟩
  · intro doc f nv pid op h
    rw [h]; exact ⟨rfl, rfl⟩
  · intro e d pid op; rfl

/-- C2 (witness): a concrete no-change restore writes nothing and rolls the
Process Record back. -/
theorem noop_rolls_back_record_except_insert_witness :
    restoreOne ⟨[("f", .vstr "v")], some [{ log_id := "L", operation := "update" }]⟩
      "f" "L" "p" "restore" = .noChange ∧
    (restoreOne ⟨[("f", .vstr "v")], some [{ log_id := "L", operation := "update" }]⟩
      "f" "L" "p" "restore").writes = none ∧
    (restoreOne ⟨[("f", .vstr "v")], some [{ log_id := "L", operation := "update" }]⟩
      "f" "L" "p" "restore").deletedProcessRecord = true := by
  have h := noop_rolls_back_record_except_insert.1
    ⟨[("f", .vstr "v")], some [{ log_id := "L", operation := "update" }]⟩
    "f" "L" "p" "restore" (by decide)
  exact ⟨by decide, h.1, h.2⟩

/-- C3: for the document `{stable_id:"X", tags:["a","b"], log:[]}`, updating
`tags` to `["a","c"]` writes `tags = ["a","c"]` and a log whose single (new)
entry has `modified_field = "tags"` and `changed_values =
{added:["c"], removed:["b"]}`. -/
theorem updateOne_tags_scenario :
    updateOne ⟨[("stable_id", .vstr "X"), ("tags", .vlist [.vstr "a", .vstr "b"])], some []⟩
      "tags" (.vlist [.vstr "a", .vstr "c"]) "p1" "update" =
    .write (.vlist [.vstr "a", .vstr "c"])
      [{ log_id := "p1", operation := "update", modified_field := some "tags",
         changed_values := some { added := some [.vstr "c"], removed := some [.vstr "b"] } }] := by
  decide

/-- C4 (counterexample): for the hashable non-null scalar pair
`old = "Non-existing"`, `new = "x"` the single-field diff does not produce
`removed = [old]` — line 45 of `log_functions.py` treats the literal string
`"Non-existing"` as an empty previous value, so `removed` is `[]`, the log
entry omits `changed_values` entirely, and the inverse transform applied to
`[new]` yields `[]` (collapsing to null), not `old`. -/
theorem nonexisting_previous_breaks_scalar_diff :
    diffAdded (.vstr "Non-existing") (.vstr "x") = [.vstr "x"] ∧
    diffRemoved (.vstr "Non-existing") (.vstr "x") = [] ∧
    (updateLog none "p" "update" "f" (.vstr "Non-existing") (.vstr "x")).head? =
      some { log_id := "p", operation := "update", modified_field := some "f",
             changed_values := none } ∧
    applyInverse "f" [.vstr "x"]
      { log_id := "p", operation := "update",
        modified_fields :=
          [{ field := "f",
             added := diffAdded (.vstr "Non-existing") (.vstr "x"),
             removed := diffRemoved (.vstr "Non-existing") (.vstr "x") }] } = [] := by
  decide

/-- C4 (amended): for every pair of hashable non-null scalar values with
`old ≠ new`, where `old` is additionally not the reserved literal
`"Non-existing"`, the single-field diff yields exactly `added = [new]` and
`removed = [old]`, the log entry records them in `changed_values`, and the
inverse transform of the restore replay applied to `[new]` collapses back to
exactly `old`. -/
theorem diffField_scalar_roundtrip (old_value new_value : Val) (pid op f : String)
    (h1 : old_value.isList = false) (h2 : old_value ≠ .vnull)
    (h3 : old_value ≠ .vstr "Non-existing")
    (h4 : new_value.isList = false) (h5 : new_value ≠ .vnull)
    (h6 : old_value ≠ new_value) :
    diffAdded old_value new_value = [new_value] ∧
    diffRemoved old_value new_value = [old_value] ∧
    (updateLog none pid op f old_value new_value).head? =
      some { log_id := pid, operation := op, modified_field := some f,
             changed_values := some { added := some [new_value], removed := some [old_value] } } ∧
    (applyInverse f [new_value]
       { log_id := pid, operation := op,
         modified_fields := [{ field := f, added := [new_value], removed := [old_value] }] }).headD
       .vnull = old_value := by
  have hp := prevList_scalar old_value h1 h2 h3
  have hn := newList_scalar new_value h4 h5
  have ha : diffAdded old_value new_value = [new_value] := by
    simp [diffAdded, hp, hn, Ne.symm h6]
  have hr : diffRemoved old_value new_value = [old_value] := by
    simp [diffRemoved, hp, hn, h6]
  refine ⟨ha, hr, ?_, ?_⟩
  · simp [updateLog, ha, hr, h2, h3]
  · simp [applyInverse, List.find?]

/-- C4 (witness): the amended round trip at the concrete scalar pair
`old = "a"`, `new = "b"`. -/
theorem diffField_scalar_roundtrip_witness :
    diffAdded (.vstr "a") (.vstr "b") = [.vstr "b"] ∧
    diffRemoved (.vstr "a") (.vstr "b") = [.vstr "a"] ∧
    (updateLog none "p" "update" "f" (.vstr "a") (.vstr "b")).head? =
      some { log_id := "p", operation := "update", modified_field := some "f",
             changed_values := some { added := some [.vstr "b"], removed := some [.vstr "a"] } } ∧
    (applyInverse "f" [.vstr "b"]
       { log_id := "p", operation := "update",
         modified_fields := [{ field := "f", added := [.vstr "b"], removed := [.vstr "a"] }] }).headD
       .vnull = .vstr "a" :=
  diffField_scalar_roundtrip (.vstr "a") (.vstr "b") "p" "update" "f"
    (by decide) (by decide) (by decide) (by decide) (by decide) (by decide)

/-- C5: the embedded-object list diff reports no change exactly when the two
lists contain the same set of mappings — where two flat mappings are the same
mapping when their key-sorted normal forms coincide — regardless of element
order in either list and of key order inside each mapping; equivalently, a
descriptor is emitted only when some mapping occurs on exactly one side. -/
theorem compare_list_of_dicts_set_semantics
    (old_list new_list : List (List (String × Val))) (field_name : String) :
    compare_list_of_dicts old_list new_list field_name = none ↔
      ((∀ d ∈ old_list, ∃ e ∈ new_list, normalizeDict e = normalizeDict d) ∧
       (∀ d ∈ new_list, ∃ e ∈ old_list, normalizeDict e = normalizeDict d)) := by
  simp only [compare_list_of_dicts]
  rw [ite_eq_right_iff]
  constructor
  · intro h
    constructor
    · rw [← filter_not_mem_dedup_eq_nil old_list new_list]
      by_contra hne
      exact Option.noConfusion (h (Or.inr hne))
    · rw [← filter_not_mem_dedup_eq_nil new_list old_list]
      by_contra hne
      exact Option.noConfusion (h (Or.inl hne))
  · rintro ⟨h1, h2⟩ hcond
    exfalso
    rcases hcond with hne | hne
    · exact hne ((filter_not_mem_dedup_eq_nil new_list old_list).mpr h2)
    · exact hne ((filter_not_mem_dedup_eq_nil old_list new_list).mpr h1)

/-- C6: when the located target log entry's operation tag does not begin
(case-insensitively) with "update" or "restore", the restore fails as not
restorable: it writes nothing to the document and deletes the Process Record
created for the attempt. -/
theorem restore_rejects_non_update_operations (doc : Document)
    (field_name log_id process_id operation : String) (target : LogEntry)
    (hfind : doc.logD.find? (fun l => l.log_id = log_id) = some target)
    (hop : ¬(pyStartsWith (pyLower target.operation) "update" = true ∨
             pyStartsWith (pyLower target.operation) "restore" = true)) :
    restoreOne doc field_name log_id process_id operation = .notRestorable ∧
    (restoreOne doc field_name log_id process_id operation).writes = none ∧
    (restoreOne doc field_name log_id process_id operation).deletedProcessRecord = true := by
  have hres : restoreOne doc field_name log_id process_id operation = .notRestorable := by
    simp only [restoreOne]
    rw [hfind]
    simp [hop]
  rw [hres]
  exact ⟨rfl, rfl, rfl⟩

/-- C6 (witness): restoring to a log entry whose operation is "remove" fails
as not restorable. -/
theorem restore_rejects_non_update_operations_witness :
    restoreOne
      ⟨[("stable_id", .vstr "X"), ("f", .vint 1)],
       some [{ log_id := "L1", operation := "remove",
               modified_fields := [{ field := "f", removed := [.vint 1] }] }]⟩
      "f" "L1" "p2" "restore" = .notRestorable := by
  have h := restore_rejects_non_update_operations
    ⟨[("stable_id", .vstr "X"), ("f", .vint 1)],
     some [{ log_id := "L1", operation := "remove",
             modified_fields := [{ field := "f", removed := [.vint 1] }] }]⟩
    "f" "L1" "p2" "restore"
    { log_id := "L1", operation := "remove",
      modified_fields := [{ field := "f", removed := [.vint 1] }] }
    (by decide) (by decide)
  exact h.1

/-- C7: every operation prepends exactly one new entry at position 0 of the
document's log (an absent log reads as the empty array) and leaves every
pre-existing entry unchanged in content and relative order: the update log,
a committed restore, a committed rename, a committed remove, the
insert-overwrite path, the new-document insert path, and the batch-update
log push all produce `new_entry :: old_log`. -/
theorem log_prepend_invariant :
    (∀ (doc : Document) (pid op f : String) (pv nv : Val),
        ∃ e, updateLog (some doc) pid op f pv nv = e :: doc.logD ∧
          e.log_id = pid ∧ e.operation = op ∧ e.modified_field = some f) ∧
    (∀ (doc : Document) (f lid pid op : String) (v : Val) (l : List LogEntry),
        restoreOne doc f lid pid op = .committed v l →
          ∃ e, l = e :: doc.logD ∧ e.log_id = pid ∧ e.operation = op) ∧
    (∀ (doc : List (String × Val)) (existing_log : List LogEntry)
        (rf nf pid op : String) (d : List (String × Val)) (l : List LogEntry),
        renameOne doc existing_log rf nf pid op = .renamed d l →
          l = { log_id := pid, operation := op,
                modified_fields := [{ field := rf, renamed_to := some nf }] } :: existing_log) ∧
    (∀ (doc : List (String × Val)) (existing_log : List LogEntry)
        (rf pid op : String) (d : List (String × Val)) (l : List LogEntry),
        removeOne doc existing_log rf pid op = .removed d l →
          ∃ e, l = e :: existing_log ∧ e.log_id = pid ∧ e.operation = op) ∧
    (∀ (existing_docs : List MongoDoc) (doc : List (String × Val)) (pid op : String)
        (ed : MongoDoc),
        existing_docs.find? (fun e => stableIdOf e.content = stableIdOf doc) = some ed →
        doc ≠ ed.content →
        processOne existing_docs doc pid op =
          .overwrite (mergeDict ed.content doc)
            ({ log_id := pid, operation := op ++ "-overwrite" } :: ed.log.getD [])) ∧
    (∀ (existing_docs : List MongoDoc) (doc : List (String × Val)) (pid op : String),
        existing_docs.find? (fun e => stableIdOf e.content = stableIdOf doc) = none →
        processOne existing_docs doc pid op =
          .insertNew doc [{ log_id := pid, operation := op }]) ∧
    (∀ (e : LogEntry) (log : List LogEntry), pushLogFront e log = e :: log) := by
  refine ⟨?_, ?_, ?_, ?_, ?_, ?_, ?_⟩
  · intro doc pid op f pv nv
    exact updateLog_cons doc pid op f pv nv
  · intro doc f lid pid op v l h
    simp only [restoreOne] at h
    rcases hf : List.find? (fun e => e.log_id = lid) doc.logD with _ | t
    · rw [hf] at h
      cases h
    · rw [hf] at h
      split at h
      · cases h
      · split at h
        · cases h
        · split at h
          · split at h
            · cases h
            · cases h
              exact ⟨_, rfl, rfl, rfl⟩
          · split at h
            · cases h
            · cases h
              exact ⟨_, rfl, rfl, rfl⟩
  · intro doc existing_log rf nf pid op d l h
    simp only [renameOne] at h
    rcases hg : getDeletePath doc (pySplitChar '.' rf) with _ | p
    · rw [hg] at h; cases h
    · rw [hg] at h
      cases h
      rfl
  · intro doc existing_log rf pid op d l h
    simp only [removeOne] at h
    rcases hg : getDeletePath doc (pySplitChar '.' rf) with _ | p
    · rw [hg] at h; cases h
    · rw [hg] at h
      cases h
      exact ⟨_, rfl, rfl, rfl⟩
  · intro existing_docs doc pid op ed hfind hne
    simp only [processOne, hfind]
    rw [if_neg hne]
  · intro existing_docs doc pid op hfind
    simp only [processOne, hfind]
  · intro e log
    rfl

/-- C7 (witness): the prepend invariant at concrete inputs — a committed
restore, a rename, a remove, an insert-overwrite and a new-document
insert each place their one new entry at the head of the previous log. -/
theorem log_prepend_invariant_witness :
    (∃ e, ([{ log_id := "p9", operation := "restore", modified_field := some "f",
              changed_values := some { added := some [Val.vstr "old"],
                                       removed := some [Val.vstr "new"] } },
            { log_id := "L1", operation := "update",
              modified_fields := [{ field := "f", added := [Val.vstr "new"],
                                    removed := [Val.vstr "old"] }] },
            { log_id := "L2", operation := "update" }] : List LogEntry) =
        e :: Document.logD
          ⟨[("stable_id", .vstr "X"), ("f", .vstr "new")],
           some [{ log_id := "L1", operation := "update",
                   modified_fields := [{ field := "f", added := [Val.vstr "new"],
                                         removed := [Val.vstr "old"] }] },
                 { log_id := "L2", operation := "update" }]⟩ ∧
        e.log_id = "p9" ∧ e.operation = "restore") ∧
    (([{ log_id := "p3", operation := "rename",
         modified_fields := [{ field := "legacy", renamed_to := some "neu" }] }] :
        List LogEntry) =
      { log_id := "p3", operation := "rename",
        modified_fields := [{ field := "legacy", renamed_to := some "neu" }] } ::
        ([] : List LogEntry)) ∧
    (∃ e, ([{ log_id := "p4", operation := "remove",
              modified_fields := [{ field := "f", removed := [Val.vint 5] }] }] :
        List LogEntry) = e :: ([] : List LogEntry) ∧
        e.log_id = "p4" ∧ e.operation = "remove") ∧
    processOne [⟨[("stable_id", .vstr "X"), ("a", .vint 1)], some []⟩]
        [("stable_id", .vstr "X"), ("a", .vint 2)] "p5" "insert" =
      .overwrite
        (mergeDict [("stable_id", .vstr "X"), ("a", .vint 1)]
          [("stable_id", .vstr "X"), ("a", .vint 2)])
        ({ log_id := "p5", operation := "insert" ++ "-overwrite" } :: ([] : List LogEntry)) ∧
    processOne [] [("stable_id", .vstr "Y")] "p6" "insert" =
      .insertNew [("stable_id", .vstr "Y")] [{ log_id := "p6", operation := "insert" }] := by
  refine ⟨?_, ?_, ?_, ?_, ?_⟩
  · exact log_prepend_invariant.2.1
      ⟨[("stable_id", .vstr "X"), ("f", .vstr "new")],
       some [{ log_id := "L1", operation := "update",
               modified_fields := [{ field := "f", added := [Val.vstr "new"],
                                     removed := [Val.vstr "old"] }] },
             { log_id := "L2", operation := "update" }]⟩
      "f" "L2" "p9" "restore" (.vstr "old") _ (by decide)
  · exact log_prepend_invariant.2.2.1 [("legacy", .vstr "v1")] [] "legacy" "neu" "p3" "rename"
      [("neu", .vstr "v1")] _ (by decide)
  · exact log_prepend_invariant.2.2.2.1 [("f", .vint 5)] [] "f" "p4" "remove" [] _ (by decide)
  · exact log_prepend_invariant.2.2.2.2.1
      [⟨[("stable_id", .vstr "X"), ("a", .vint 1)], some []⟩]
      [("stable_id", .vstr "X"), ("a", .vint 2)] "p5" "insert"
      ⟨[("stable_id", .vstr "X"), ("a", .vint 1)], some []⟩ (by decide) (by decide)
  · exact log_prepend_invariant.2.2.2.2.2.1 [] [("stable_id", .vstr "Y")] "p6" "insert" rfl

/-- C8: the value normalizer maps "true"/"false" (case-insensitive, after
trimming) to the corresponding boolean, "none" to null, any text containing
";" to the ordered list of substrings split on ";" (duplicates and order
preserved, on the original untrimmed text), any other string to itself, and
every non-string value to itself; it is a pure function, hence
deterministic. -/
theorem normalizeValue_spec :
    (∀ s : String,
      (pyStrip (pyLower s) = "true" → normalizeValue (.vstr s) = .vbool true) ∧
      (pyStrip (pyLower s) = "false" → normalizeValue (.vstr s) = .vbool false) ∧
      (pyStrip (pyLower s) = "none" → normalizeValue (.vstr s) = .vnull) ∧
      (pyContainsChar s ';' = true →
        normalizeValue (.vstr s) = .vlist ((pySplitChar ';' s).map Val.vstr)) ∧
      (pyContainsChar s ';' = false → pyStrip (pyLower s) ≠ "true" →
        pyStrip (pyLower s) ≠ "false" → pyStrip (pyLower s) ≠ "none" →
        normalizeValue (.vstr s) = .vstr s)) ∧
    (∀ v : Val, v.isString = false → normalizeValue v = v) := by
  constructor
  · intro s
    refine ⟨?_, ?_, ?_, ?_, ?_⟩
    · intro h; simp [normalizeValue, h]
    · intro h; simp [normalizeValue, h]
    · intro h; simp [normalizeValue, h]
    · intro h
      obtain ⟨k1, k2, k3⟩ := contains_keyword_free s h
      simp [normalizeValue, k1, k2, k3, h]
    · intro h k1 k2 k3
      simp [normalizeValue, k1, k2, k3, h]
  · intro v hv
    cases v <;> simp_all [normalizeValue, Val.isString]

/-- C8 (witness): the normalizer cases at concrete raw values. -/
theorem normalizeValue_spec_witness :
    normalizeValue (.vstr " True ") = .vbool true ∧
    normalizeValue (.vstr "FALSE") = .vbool false ∧
    normalizeValue (.vstr " none ") = .vnull ∧
    normalizeValue (.vstr "a;b;a") = .vlist [.vstr "a", .vstr "b", .vstr "a"] ∧
    normalizeValue (.vstr "Barcelona") = .vstr "Barcelona" ∧
    normalizeValue (.vint 7) = .vint 7 := by
  refine ⟨?_, ?_, ?_, ?_, ?_, ?_⟩
  · exact (normalizeValue_spec.1 " True ").1 (by decide)
  · exact (normalizeValue_spec.1 "FALSE").2.1 (by decide)
  · exact (normalizeValue_spec.1 " none ").2.2.1 (by decide)
  · exact ((normalizeValue_spec.1 "a;b;a").2.2.2.1 (by decide)).trans (by decide)
  · exact (normalizeValue_spec.1 "Barcelona").2.2.2.2 (by decide) (by decide) (by decide)
      (by decide)
  · exact normalizeValue_spec.2 (.vint 7) (by decide)

/-- C9 (counterexample): a genuine stored value of "Non-existing" is
distinguishable from an absent field. Against an empty document, the
document storing `t = "Non-existing"` produces an added/removed-field marker
for `t`, while the document with `t` absent produces no output at all —
removing the stored sentinel changes the diff. -/
theorem stored_sentinel_distinguishable_from_absent :
    (diffLogEntry [("t", .vstr "Non-existing")] [] "p" "op").modified_fields =
      [{ field := "t" }] ∧
    (diffLogEntry [] [] "p" "op").modified_fields = [] := by
  exact ⟨by decide, by decide⟩

/-- C9 (amended): the literal string "Non-existing" is the internal absence
sentinel of the whole-document diff: for every flattened path (outside the
`_id`/`log` exclusions) whose value on either side reads as "Non-existing" —
whether stored or defaulted for an absent key — the diff emits a bare
`{field}` marker with no added or removed lists, treating a stored sentinel
per-path exactly like an absent field; the set of paths, however, comes from
the stored keys, so when the other side also lacks the path a stored sentinel
still yields a marker whereas genuine absence on both sides yields nothing. -/
theorem sentinel_bare_marker (old_doc new_doc : List (String × Val))
    (process_id operation key : String)
    (hk : ¬(pyStartsWith key "_id" = true ∨ pyStartsWith key "log" = true))
    (hmem : key ∈ (flatten_dict old_doc).map Prod.fst ++ (flatten_dict new_doc).map Prod.fst)
    (hs : flatGet (flatten_dict old_doc) key = .vstr "Non-existing" ∨
          flatGet (flatten_dict new_doc) key = .vstr "Non-existing") :
    ({ field := key } : FieldDescr) ∈
      (diffLogEntry old_doc new_doc process_id operation).modified_fields := by
  simp only [diffLogEntry]
  refine List.mem_filterMap.mpr ⟨key, ?_, ?_⟩
  · rw [List.mem_dedup]
    exact hmem
  · rw [if_neg hk]
    simp only [diffKey]
    rw [if_pos hs]

/-- C9 (witness): a stored "Non-existing" at `t`, with `t` present on the
other side, yields the bare `{field: "t"}` marker. -/
theorem sentinel_bare_marker_witness :
    ({ field := "t" } : FieldDescr) ∈
      (diffLogEntry [("t", .vstr "Non-existing"), ("u", .vint 1)] [("u", .vint 1)]
        "p" "op").modified_fields :=
  sentinel_bare_marker [("t", .vstr "Non-existing"), ("u", .vint 1)] [("u", .vint 1)]
    "p" "op" "t" (by decide) (by decide) (Or.inl (by decide))

/-- C10: when the previous value is null (as callers pass for an absent
field) or the absence sentinel, the new log entry contains only `log_id`,
`operation` and `modified_field` — no `changed_values` key at all — even when
the new value is non-null, so values introduced by a field-creating update
are never recorded. -/
theorem updateLog_null_previous_no_changed_values
    (previous_document : Option Document) (process_id operation update_field : String)
    (new_value : Val) (previous_value : Val)
    (h : previous_value = .vnull ∨ previous_value = .vstr "Non-existing") :
    (updateLog previous_document process_id operation update_field previous_value new_value).head? =
      some { log_id := process_id, operation := operation,
             modified_field := some update_field, changed_values := none } := by
  rcases h with h | h <;> subst h <;> simp [updateLog]

/-- C10 (witness): creating the `city` field with a non-null value logs an
entry with no `changed_values`. -/
theorem updateLog_null_previous_no_changed_values_witness :
    (updateLog (some ⟨[("stable_id", .vstr "X")], some []⟩) "p1" "update" "city"
        Val.vnull (.vstr "Barcelona")).head? =
      some { log_id := "p1", operation := "update",
             modified_field := some "city", changed_values := none } :=
  updateLog_null_previous_no_changed_values
    (some ⟨[("stable_id", .vstr "X")], some []⟩) "p1" "update" "city"
    (.vstr "Barcelona") Val.vnull (Or.inl rfl)

end BioMongo
